import Mathlib

/-!
Verification development for the `sam` time-series toolkit.

This file gives a shallow embedding in Lean 4 of the parts of the repository
that the specification's testable properties talk about:

* `sam/utils/time.py` — `label_dst` and `average_winter_time`;
* `sam/feature_engineering/weather_spei.py` — the `SPEITransformer` state
  machine (`check_X`, `compute_target`, `configure`, `transform`);
* `sam/preprocessing` — `complete_timestamps`, whose implementation file is
  not part of the sources at hand (only its test suite is), and which is
  therefore modelled from the specification text.

Pandas/numpy specifics that matter for the embedded semantics:

* a pandas timestamp exposes `month`, `day`, `weekday` (Monday = 0, so
  Sunday = 6), `hour`; we embed timestamps as a record of those fields;
* not-a-number cells are embedded as `Option ℚ` being `none`; a comparison
  against a missing value is false, matching IEEE `NaN` comparisons;
* a sample standard deviation (`ddof = 1`) of fewer than two points is
  missing; since the standard deviation is an irrational square root, the
  model stores its square (the sample variance, `std_sq`).  The square root
  is strictly monotone on nonnegatives, so missingness, being zero, and the
  selection made by rolling medians are all preserved by this representation;
* a z-score `(t - m) / s` where `s = √s2 = 0` follows IEEE division: positive
  numerator gives `+∞`, negative gives `-∞`, and `0 / 0` is not a number.
  A finite nonzero denominator gives the finite value `(t - m) / √s2`,
  embedded as the constructor `Val.fin (t - m) s2` carrying numerator and
  squared denominator.
-/

/-- A local wall-clock timestamp, embedding the pandas accessor fields used by
`label_dst`: `weekday` follows pandas (Monday = 0, Sunday = 6). `minute`
distinguishes timestamps within an hour. -/
structure Ts where
  month : ℕ
  day : ℕ
  weekday : ℕ
  hour : ℕ
  minute : ℕ
deriving DecidableEq

/-- The three labels produced by `label_dst` in `sam/utils/time.py`. -/
inductive DstLabel where
  | normal
  | to_summertime
  | to_wintertime
deriving DecidableEq

/-- Embedding of `label_dst` (sam/utils/time.py): `last_sunday_morning` is
`day ≥ 25 ∧ weekday == 6 ∧ hour == 2`; nested `np.where` picks
`to_summertime` for March candidates, `to_wintertime` for October
candidates, `normal` otherwise. -/
def last_sunday_morning (ts : Ts) : Prop :=
  25 ≤ ts.day ∧ ts.weekday = 6 ∧ ts.hour = 2

instance (ts : Ts) : Decidable (last_sunday_morning ts) := by
  unfold last_sunday_morning
  infer_instance

def label_dst (ts : Ts) : DstLabel :=
  if last_sunday_morning ts ∧ ts.month = 3 then .to_summertime
  else if last_sunday_morning ts ∧ ts.month = 10 then .to_wintertime
  else .normal

/-- C2: `label_dst` assigns each timestamp exactly one of the three labels,
pointwise: `to_summertime` iff day ≥ 25, weekday = Sunday (6), hour = 2 and
month = 3; `to_wintertime` iff the same day/weekday/hour condition holds and
month = 10; `normal` in every other case. -/
theorem label_dst_characterization (ts : Ts) :
    (label_dst ts = .to_summertime ↔
      (25 ≤ ts.day ∧ ts.weekday = 6 ∧ ts.hour = 2) ∧ ts.month = 3) ∧
    (label_dst ts = .to_wintertime ↔
      (25 ≤ ts.day ∧ ts.weekday = 6 ∧ ts.hour = 2) ∧ ts.month = 10) ∧
    (label_dst ts = .normal ↔
      ¬ ((25 ≤ ts.day ∧ ts.weekday = 6 ∧ ts.hour = 2) ∧ ts.month = 3) ∧
      ¬ ((25 ≤ ts.day ∧ ts.weekday = 6 ∧ ts.hour = 2) ∧ ts.month = 10)) := by
  unfold label_dst last_sunday_morning
  split_ifs with h1 h2 <;>
    refine ⟨?_, ?_, ?_⟩ <;> simp_all [last_sunday_morning]

/-- Arithmetic mean of a list of rationals (pandas `mean` on a group); only
ever applied to nonempty groups. -/
def listMean (l : List ℚ) : ℚ := l.sum / l.length

/-- An input row of `average_winter_time`: a `TIME` column, a `VALUE` column,
and the remaining columns (`ID`, `TYPE`, ...) bundled as `other`. -/
structure WRow (γ : Type) where
  TIME : Ts
  other : γ
  VALUE : ℚ
deriving DecidableEq

/-- Embedding of the temporary-key assignment inside `average_winter_time`
(sam/utils/time.py): `np.where(dst_labels == 'to_wintertime', -1,
np.arange(len(data)))`, with explicit running index. -/
def awt_tag {γ : Type} : ℕ → List (WRow γ) → List (WRow γ × ℤ)
  | _, [] => []
  | i, r :: rs =>
    (r, if label_dst r.TIME = DstLabel.to_wintertime then (-1 : ℤ) else (i : ℤ)) ::
      awt_tag (i + 1) rs

/-- The group-by key of `average_winter_time`: every column except `VALUE`,
i.e. `TIME`, the other columns, and the temporary column. -/
def awtKey {γ : Type} (p : WRow γ × ℤ) : Ts × γ × ℤ := (p.1.TIME, p.1.other, p.2)


/-- The distinct group keys of `average_winter_time`, one per output row. -/
def awtGroups {γ : Type} [DecidableEq γ] (data : List (WRow γ)) :
    List (Ts × γ × ℤ) :=
  ((awt_tag 0 data).map awtKey).dedup

/-- The output row of `average_winter_time` for one group key: the key
columns unchanged, and `VALUE` the mean of the group's values. -/
def awtOut {γ : Type} [DecidableEq γ] (data : List (WRow γ)) (k : Ts × γ × ℤ) :
    WRow γ :=
  { TIME := k.1, other := k.2.1,
    VALUE := listMean
      (((awt_tag 0 data).filter fun p => awtKey p = k).map fun p => p.1.VALUE) }

/-- Embedding of `average_winter_time` (sam/utils/time.py): tag each row with
a temporary key that is `-1` for `to_wintertime` rows and the unique row
index otherwise, group by all columns except `VALUE`, and take the mean of
`VALUE` within each group (the temporary column is dropped afterwards).
Output lists each group once; the claims proved below are about the output's
content, not its order. -/
def average_winter_time {γ : Type} [DecidableEq γ] (data : List (WRow γ)) :
    List (WRow γ) :=
  (awtGroups data).map (awtOut data)

lemma awt_tag_winter_tag {γ : Type} (data : List (WRow γ)) :
    ∀ i p, p ∈ awt_tag i data →
      label_dst p.1.TIME = DstLabel.to_wintertime → p.2 = -1 := by
  induction data with
  | nil => intro i p hp _; simp [awt_tag] at hp
  | cons r rs ih =>
    intro i p hp hlab
    simp only [awt_tag, List.mem_cons] at hp
    rcases hp with hp | hp
    · subst hp
      simp only at hlab
      simp [hlab]
    · exact ih (i + 1) p hp hlab

lemma mem_awt_tag_of_mem {γ : Type} {r : WRow γ} {data : List (WRow γ)} :
    ∀ i, r ∈ data → ∃ z, (r, z) ∈ awt_tag i data := by
  induction data with
  | nil => intro i h; simp at h
  | cons x xs ih =>
    intro i h
    rcases List.mem_cons.mp h with h | h
    · subst h
      exact ⟨_, List.mem_cons_self _ _⟩
    · rcases ih (i + 1) h with ⟨z, hz⟩
      exact ⟨z, List.mem_cons_of_mem _ hz⟩

lemma awt_tag_filter_winter {γ : Type} [DecidableEq γ] (t : Ts) (o : γ)
    (hw : label_dst t = DstLabel.to_wintertime) (data : List (WRow γ)) :
    ∀ i, (awt_tag i data).filter (fun p => awtKey p = (t, o, (-1 : ℤ)))
      = (data.filter fun r => r.TIME = t ∧ r.other = o).map fun r => (r, (-1 : ℤ)) := by
  induction data with
  | nil => intro i; simp [awt_tag]
  | cons r rs ih =>
    intro i
    by_cases hm : r.TIME = t ∧ r.other = o
    · have hlab : label_dst r.TIME = DstLabel.to_wintertime := by
        rw [hm.1]; exact hw
      simp only [awt_tag, hlab, if_true, List.filter_cons]
      rw [if_pos (by simp [awtKey, hm.1, hm.2]), if_pos (by simp [hm.1, hm.2])]
      simp [ih (i + 1)]
    · have hkey : awtKey (r, if label_dst r.TIME = DstLabel.to_wintertime
          then (-1 : ℤ) else (i : ℤ)) ≠ (t, o, (-1 : ℤ)) := by
        intro hE
        simp only [awtKey, Prod.mk.injEq] at hE
        exact hm ⟨hE.1, hE.2.1⟩
      simp only [awt_tag, List.filter_cons]
      rw [if_neg (by simpa using hkey), if_neg (by simpa using hm)]
      exact ih (i + 1)

lemma nodup_all_eq_singleton {α : Type} {l : List α} {c : α} (hn : l.Nodup)
    (ha : ∀ x ∈ l, x = c) (hc : c ∈ l) : l = [c] := by
  cases l with
  | nil => simp at hc
  | cons x xs =>
    have hx : x = c := ha x (List.mem_cons_self x xs)
    subst hx
    cases xs with
    | nil => rfl
    | cons y ys =>
      have hy : y = x := ha y (by simp)
      rw [hy] at hn
      simp [List.nodup_cons] at hn

lemma awtGroups_filter_winter {γ : Type} [DecidableEq γ]
    (data : List (WRow γ)) (t : Ts) (o : γ)
    (hw : label_dst t = DstLabel.to_wintertime)
    (hne : (data.filter fun r => r.TIME = t ∧ r.other = o) ≠ []) :
    (awtGroups data).filter (fun k => k.1 = t ∧ k.2.1 = o) = [(t, o, (-1 : ℤ))] := by
  apply nodup_all_eq_singleton
  · exact (List.nodup_dedup _).filter _
  · intro x hx
    rcases List.mem_filter.mp hx with ⟨hmem, hpred⟩
    rcases List.mem_map.mp (List.mem_dedup.mp hmem) with ⟨p, hp, hkx⟩
    simp only [decide_eq_true_eq] at hpred
    subst hkx
    have h1 : p.1.TIME = t := hpred.1
    have h2 : p.1.other = o := hpred.2
    have hlab : label_dst p.1.TIME = DstLabel.to_wintertime := by
      rw [h1]; exact hw
    have htag : p.2 = -1 := awt_tag_winter_tag data 0 p hp hlab
    simp [awtKey, h1, h2, htag]
  · apply List.mem_filter.mpr
    refine ⟨?_, by simp⟩
    apply List.mem_dedup.mpr
    rcases List.exists_mem_of_ne_nil _ hne with ⟨r, hr⟩
    rcases List.mem_filter.mp hr with ⟨hrd, hrp⟩
    simp only [decide_eq_true_eq] at hrp
    rcases mem_awt_tag_of_mem 0 hrd with ⟨z, hz⟩
    have hlab : label_dst r.TIME = DstLabel.to_wintertime := by
      rw [hrp.1]; exact hw
    have htag : z = -1 := awt_tag_winter_tag data 0 (r, z) hz hlab
    subst htag
    exact List.mem_map.mpr ⟨(r, -1), hz, by simp [awtKey, hrp.1, hrp.2]⟩

/-- C3: `average_winter_time` merges all rows labeled `to_wintertime` that
agree on the wall-clock time and every non-`VALUE` column into one output
row whose `VALUE` is the arithmetic mean of their values, keeping the key
columns unchanged. -/
theorem average_winter_time_merges {γ : Type} [DecidableEq γ]
    (data : List (WRow γ)) (t : Ts) (o : γ)
    (hw : label_dst t = DstLabel.to_wintertime)
    (hne : (data.filter fun r => r.TIME = t ∧ r.other = o) ≠ []) :
    ((average_winter_time data).filter fun r => r.TIME = t ∧ r.other = o).map
        (fun r => r.VALUE)
      = [listMean ((data.filter fun r => r.TIME = t ∧ r.other = o).map
          fun r => r.VALUE)] := by
  unfold average_winter_time
  rw [List.filter_map]
  have hsame : ((awtGroups data).filter
        ((fun r : WRow γ => decide (r.TIME = t ∧ r.other = o)) ∘ awtOut data))
      = (awtGroups data).filter (fun k => k.1 = t ∧ k.2.1 = o) := by
    apply List.filter_congr
    intro k _
    simp [awtOut, Function.comp]
  rw [hsame, awtGroups_filter_winter data t o hw hne]
  simp only [List.map_cons, List.map_nil]
  congr 1
  unfold awtOut
  simp only []
  rw [awt_tag_filter_winter t o hw data 0]
  rw [List.map_map]
  rfl

/-- Witness for C3 at the spec's example hour: 2019-10-27 02:00 (October,
day 27, Sunday, hour 2) with two colliding rows valued 1 and 2. -/
theorem average_winter_time_merges_witness :
    label_dst ⟨10, 27, 6, 2, 0⟩ = DstLabel.to_wintertime ∧
    (([⟨⟨10, 27, 6, 2, 0⟩, (1 : ℤ), 1⟩, ⟨⟨10, 27, 6, 2, 0⟩, (1 : ℤ), 2⟩] :
        List (WRow ℤ)).filter fun r => r.TIME = ⟨10, 27, 6, 2, 0⟩ ∧ r.other = 1) ≠ [] ∧
    ((average_winter_time
        ([⟨⟨10, 27, 6, 2, 0⟩, (1 : ℤ), 1⟩, ⟨⟨10, 27, 6, 2, 0⟩, (1 : ℤ), 2⟩] :
          List (WRow ℤ))).filter fun r =>
            r.TIME = ⟨10, 27, 6, 2, 0⟩ ∧ r.other = 1).map (fun r => r.VALUE)
      = [listMean
          ((([⟨⟨10, 27, 6, 2, 0⟩, (1 : ℤ), 1⟩, ⟨⟨10, 27, 6, 2, 0⟩, (1 : ℤ), 2⟩] :
            List (WRow ℤ)).filter fun r =>
              r.TIME = ⟨10, 27, 6, 2, 0⟩ ∧ r.other = 1).map fun r => r.VALUE)] :=
  ⟨by decide, by decide,
    average_winter_time_merges _ _ _ (by decide) (by decide)⟩

/-- A calendar date as the SPEI transformer sees it: an absolute day number
`t` (for the time-based rolling window) and the pandas accessors `month`
and `day`. -/
structure SDate where
  t : ℤ
  month : ℕ
  day : ℕ
deriving DecidableEq

/-- One row of the transformer's input frame: the daily precipitation `RH`
and evaporation `EV24` columns (KNMI names used by the source). -/
structure XRow where
  date : SDate
  RH : ℚ
  EV24 : ℚ
deriving DecidableEq

/-- An input dataframe: which of the two required columns are present, plus
the rows (assumed indexed by increasing dates, as pandas time-based rolling
requires a monotonic index). -/
structure Frame where
  hasRH : Bool
  hasEV24 : Bool
  rows : List XRow
deriving DecidableEq

/-- The two supported metrics of `SPEITransformer`. -/
inductive Metric where
  | SPI
  | SPEI
deriving DecidableEq

/-- Constructor arguments of `SPEITransformer`. `window` is the rolling
window length in days (the source's duration string, e.g. `'30D'`). -/
structure SPEIParams where
  metric : Metric
  window : ℕ
  smoothing : Bool
  min_years : ℕ
deriving DecidableEq

/-- The exceptions raised by the transformer: `ValueError` on a missing
column (`schemaError`), `ValueError` on insufficient history, and sklearn's
`NotFittedError` from `check_configured` (`notConfiguredError`). -/
inductive SPEIError where
  | schemaError
  | insufficientHistoryError
  | notConfiguredError
deriving DecidableEq

/-- One row of the fitted model: per-(month, day) `count`, `mean` and the
square of the standard deviation (`std_sq`); `none` embeds `NaN`.  The
source stores the sample standard deviation itself; since that is an
irrational square root, the model stores its square — square root being
strictly monotone and injective on nonnegatives, missingness, zero-ness and
the orderings used by the rolling medians are unchanged. -/
structure ModelRow where
  month : ℕ
  day : ℕ
  count : ℕ
  mean : Option ℚ
  std_sq : Option ℚ
deriving DecidableEq

/-- The mutable state of a `SPEITransformer` instance: the `configured` flag
and the `model` attribute (absent until first written). -/
structure SPEIState where
  configured : Bool
  model : Option (List ModelRow)
deriving DecidableEq

/-- Embedding of `SPEITransformer.check_X`: `RH` is always required; `EV24`
is additionally required exactly when the metric is SPEI. -/
def check_X (p : SPEIParams) (X : Frame) : Except SPEIError Unit :=
  if X.hasRH = false then .error .schemaError
  else if X.hasEV24 = false ∧ p.metric = .SPEI then .error .schemaError
  else .ok ()

/-- The daily target variable: precipitation for SPI, precipitation minus
evaporation for SPEI. -/
def targetVal (p : SPEIParams) (r : XRow) : ℚ :=
  match p.metric with
  | .SPI => r.RH
  | .SPEI => r.RH - r.EV24

/-- Embedding of `compute_target`'s `target.rolling(window).mean()`: pandas
time-based rolling with `min_periods = 1` takes, for each row, the mean of
the target over rows whose date lies in the half-open window
`(t - window, t]`.  Each row's own date is in its window, so (for a positive
window) no entry is `NaN`. -/
def targets (p : SPEIParams) (X : Frame) : List ℚ :=
  X.rows.map fun r =>
    listMean ((X.rows.filter fun r2 =>
      r.date.t - (p.window : ℤ) < r2.date.t ∧ r2.date.t ≤ r.date.t).map (targetVal p))

/-- Sample variance (pandas `std` squared, `ddof = 1`): `NaN` on fewer than
two observations. -/
def sampleVar (l : List ℚ) : Option ℚ :=
  if l.length ≤ 1 then none
  else some ((l.map fun x => (x - listMean l) ^ 2).sum / ((l.length : ℚ) - 1))

/-- Lexicographic order on (month, day) keys, used to embed
`sort_values(by=['month', 'day'])`. -/
def mdKeyLe (a b : ℕ × ℕ) : Prop :=
  a.1 < b.1 ∨ (a.1 = b.1 ∧ a.2 ≤ b.2)

instance : DecidableRel mdKeyLe := fun a b => by
  unfold mdKeyLe
  infer_instance

/-- Embedding of the grouped aggregation inside `configure`: group the
rolling target by calendar (month, day), compute per-group `count`, `mean`
and (squared) `std`, and sort the groups by (month, day). -/
def rawModel (p : SPEIParams) (X : Frame) : List ModelRow :=
  let keyed := X.rows.zip (targets p X)
  let keys := (X.rows.map fun r => (r.date.month, r.date.day)).dedup
  (List.insertionSort mdKeyLe keys).map fun k =>
    let vs := (keyed.filter fun rt =>
      rt.1.date.month = k.1 ∧ rt.1.date.day = k.2).map fun rt => rt.2
    { month := k.1, day := k.2, count := vs.length,
      mean := if vs.length = 0 then none else some (listMean vs),
      std_sq := sampleVar vs }

/-- `n_years = self.model['count'].max()`: `none` embeds the `NaN` that
pandas `max` yields on an empty frame. -/
def nYearsOf (m : List ModelRow) : Option ℕ :=
  (m.map fun r => r.count).max?

/-- The raise condition `n_years < self.min_years`: a comparison against
`NaN` is false. -/
def insufficient (nOpt : Option ℕ) (minYears : ℕ) : Bool :=
  match nOpt with
  | some n => decide (n < minYears)
  | none => false

/-- The per-row condition of the sparse-key rule
`count < n_years / 2` (real division in the source, so `2 * count < n`);
a comparison against `NaN` is false. -/
def belowHalf (nOpt : Option ℕ) (c : ℕ) : Bool :=
  match nOpt with
  | some n => decide (2 * c < n)
  | none => false

/-- Embedding of the sparse-key rule of `configure`: every group whose count
is below half of `n_years` has `mean` and `std` forced to `NaN`. -/
def nanRule (m : List ModelRow) (nOpt : Option ℕ) : List ModelRow :=
  m.map fun r =>
    if belowHalf nOpt r.count then { r with mean := none, std_sq := none }
    else r

/-- Median of a list of rationals: sort, take the middle element, or the
mean of the two middle elements for even length; `NaN` when empty. -/
def medianList (l : List ℚ) : Option ℚ :=
  let s := List.insertionSort (fun a b : ℚ => a ≤ b) l
  if s.length = 0 then none
  else if s.length % 2 = 1 then some (s.getD (s.length / 2) 0)
  else some ((s.getD (s.length / 2 - 1) 0 + s.getD (s.length / 2) 0) / 2)

/-- Embedding of `rolling(5, center=True, min_periods=1).median()` over a
column with missing entries: each output position is the median of the
non-missing values among the (at most five) positions within distance two,
and is missing only when all of them are. -/
def rollMed5 (vals : List (Option ℚ)) : List (Option ℚ) :=
  (List.range vals.length).map fun i =>
    medianList (((List.range vals.length).filter fun j =>
      i ≤ j + 2 ∧ j ≤ i + 2).filterMap fun j => vals.getD j none)

/-- Embedding of the smoothing step of `configure`: replace the `mean` and
`std` columns by their centered five-point rolling medians. -/
def smoothModel (m : List ModelRow) : List ModelRow :=
  let ms := rollMed5 (m.map fun r => r.mean)
  let ss := rollMed5 (m.map fun r => r.std_sq)
  (m.zip (ms.zip ss)).map fun rms =>
    { rms.1 with mean := rms.2.1, std_sq := rms.2.2 }

/-- Embedding of `SPEITransformer.configure`, as a state transformer
returning the updated instance state and either unit or the raised
exception.  The source writes `self.model` before the history check, so a
history failure leaves a partial model behind while `configured` stays
untouched. -/
def configure (st : SPEIState) (p : SPEIParams) (X : Frame) :
    SPEIState × Except SPEIError Unit :=
  match check_X p X with
  | .error e => (st, .error e)
  | .ok _ =>
    let m0 := rawModel p X
    let st1 : SPEIState := { st with model := some m0 }
    if insufficient (nYearsOf m0) p.min_years then
      (st1, .error .insufficientHistoryError)
    else
      let m1 := nanRule m0 (nYearsOf m0)
      let m2 := if p.smoothing then smoothModel m1 else m1
      ({ configured := true, model := some m2 }, .ok ())

/-- The value domain of `transform`'s output column, following IEEE/numpy
arithmetic: `fin q s2` is the finite value `q / √s2` (numerator and squared
denominator), and `inf`, `neginf`, `nan` are the nonfinite outcomes. -/
inductive Val where
  | fin (num : ℚ) (den_sq : ℚ)
  | inf
  | neginf
  | nan
deriving DecidableEq

/-- The z-score `(target - mean) / std` under IEEE semantics: any missing
operand gives `NaN`; a zero divisor gives `+∞`, `-∞` or `NaN` by the sign
of the numerator; otherwise a finite value. -/
def zscore (t : ℚ) (mean std_sq : Option ℚ) : Val :=
  match mean, std_sq with
  | some m, some s =>
    if s = 0 then
      if m < t then .inf else if t < m then .neginf else .nan
    else .fin (t - m) s
  | _, _ => .nan

/-- The left join of `transform`: the first model row with the given
(month, day), if any. -/
def modelFind (m : List ModelRow) (month day : ℕ) : Option ModelRow :=
  m.find? fun e => e.month == month && e.day == day

/-- The output column of `transform`: the rolling target of each input row,
z-scored against its (month, day) model entry; a row with no matching entry
joins to missing values. -/
def transformVals (m : List ModelRow) (p : SPEIParams) (X : Frame) : List Val :=
  (X.rows.zip (targets p X)).map fun rt =>
    match modelFind m rt.1.date.month rt.1.date.day with
    | some e => zscore rt.2 e.mean e.std_sq
    | none => zscore rt.2 none none

/-- Embedding of `SPEITransformer.transform`: `check_configured` first, then
`check_X`, then the join-and-z-score computation.  The `none` model branch
is unreachable for states produced through `configure` (the source would
fail on the missing attribute). -/
def transform (st : SPEIState) (p : SPEIParams) (X : Frame) :
    Except SPEIError (List Val) :=
  if st.configured = false then .error .notConfiguredError
  else
    match check_X p X with
    | .error e => .error e
    | .ok _ =>
      match st.model with
      | some m => .ok (transformVals m p X)
      | none => .error .notConfiguredError

lemma transform_unconfigured (st : SPEIState) (p : SPEIParams) (X : Frame)
    (h : st.configured = false) :
    transform st p X = .error .notConfiguredError := by
  unfold transform
  rw [if_pos h]

lemma check_X_cases (p : SPEIParams) (X : Frame) :
    check_X p X = .error .schemaError ∨ check_X p X = .ok () := by
  unfold check_X
  split_ifs <;> simp

lemma check_X_error_iff (p : SPEIParams) (X : Frame) :
    check_X p X = .error .schemaError ↔
      (X.hasRH = false ∨ (p.metric = .SPEI ∧ X.hasEV24 = false)) := by
  unfold check_X
  cases hrh : X.hasRH <;> cases hev : X.hasEV24 <;>
    cases hm : p.metric <;> simp_all

/-- The model stored on the success path of `configure`. -/
def finalModel (p : SPEIParams) (X : Frame) : List ModelRow :=
  let m1 := nanRule (rawModel p X) (nYearsOf (rawModel p X))
  if p.smoothing then smoothModel m1 else m1

lemma configure_shape (st : SPEIState) (p : SPEIParams) (X : Frame)
    (h : check_X p X = .ok ()) :
    (insufficient (nYearsOf (rawModel p X)) p.min_years = true ∧
      configure st p X
        = ({ st with model := some (rawModel p X) }, .error .insufficientHistoryError)) ∨
    (insufficient (nYearsOf (rawModel p X)) p.min_years = false ∧
      configure st p X
        = ({ configured := true, model := some (finalModel p X) }, .ok ())) := by
  unfold configure finalModel
  rw [h]
  by_cases hins : insufficient (nYearsOf (rawModel p X)) p.min_years = true
  · left
    refine ⟨hins, ?_⟩
    simp only [hins, if_true]
  · right
    rw [Bool.not_eq_true] at hins
    refine ⟨hins, ?_⟩
    simp only [hins, Bool.false_eq_true, if_false]

/-- C7: on any instance whose `configured` flag is not set, `transform`
raises `NotConfiguredError` for every input; it never produces output in
the unconfigured state. -/
theorem transform_before_configure (st : SPEIState) (p : SPEIParams) (X : Frame)
    (h : st.configured = false) :
    transform st p X = .error .notConfiguredError :=
  transform_unconfigured st p X h

/-- Witness for C7: a fresh instance rejects a well-formed input frame. -/
theorem transform_before_configure_witness :
    (⟨false, none⟩ : SPEIState).configured = false ∧
    transform ⟨false, none⟩ ⟨.SPEI, 30, true, 30⟩ ⟨true, true, []⟩
      = .error .notConfiguredError :=
  ⟨rfl, transform_before_configure _ _ _ rfl⟩

/-- C8: a missing `RH` column makes both `configure` and (on a configured
instance) `transform` raise `SchemaError` for either metric, and a missing
`EV24` column does so exactly when the metric is SPEI. -/
theorem schema_error_iff (st : SPEIState) (p : SPEIParams) (X : Frame)
    (hc : st.configured = true) :
    ((configure st p X).2 = .error .schemaError ↔
      (X.hasRH = false ∨ (p.metric = .SPEI ∧ X.hasEV24 = false))) ∧
    (transform st p X = .error .schemaError ↔
      (X.hasRH = false ∨ (p.metric = .SPEI ∧ X.hasEV24 = false))) := by
  have hcx := check_X_error_iff p X
  rcases check_X_cases p X with h | h
  · have hR := hcx.mp h
    constructor
    · unfold configure
      rw [h]
      simpa using hR
    · unfold transform
      rw [if_neg (by simp [hc]), h]
      simpa using hR
  · have hR : ¬ (X.hasRH = false ∨ (p.metric = .SPEI ∧ X.hasEV24 = false)) := by
      intro hr
      have hcontra := (hcx.mpr hr).symm.trans h
      simp at hcontra
    constructor
    · refine iff_of_false ?_ hR
      rcases configure_shape st p X h with ⟨-, hEq⟩ | ⟨-, hEq⟩ <;>
        rw [hEq] <;> simp
    · refine iff_of_false ?_ hR
      unfold transform
      rw [if_neg (by simp [hc]), h]
      cases st.model <;> simp

/-- A frame with two years of daily history on the single key (1, 1). -/
def X6 : Frame := ⟨true, true, [⟨⟨0, 1, 1⟩, 0, 0⟩, ⟨⟨1, 1, 1⟩, 1, 0⟩]⟩

/-- SPI parameters with a one-day window and `min_years = 2`. -/
def P6 : SPEIParams := ⟨.SPI, 1, true, 2⟩

/-- SPI parameters with a one-day window and `min_years = 5`. -/
def P10 : SPEIParams := ⟨.SPI, 1, true, 5⟩

/-- Witness for C8: on a configured instance with metric SPI, a frame
missing `EV24` (but having `RH`): the schema-error conditions evaluate as
the theorem states, so the absence of `EV24` raises nothing under SPI. -/
theorem schema_error_iff_witness :
    ((configure ⟨true, some []⟩ ⟨.SPI, 1, true, 0⟩ ⟨true, false, []⟩).2
        = .error .schemaError ↔
      ((⟨true, false, []⟩ : Frame).hasRH = false ∨
        ((⟨.SPI, 1, true, 0⟩ : SPEIParams).metric = .SPEI ∧
          (⟨true, false, []⟩ : Frame).hasEV24 = false))) ∧
    (transform ⟨true, some []⟩ ⟨.SPI, 1, true, 0⟩ ⟨true, false, []⟩
        = .error .schemaError ↔
      ((⟨true, false, []⟩ : Frame).hasRH = false ∨
        ((⟨.SPI, 1, true, 0⟩ : SPEIParams).metric = .SPEI ∧
          (⟨true, false, []⟩ : Frame).hasEV24 = false))) :=
  schema_error_iff ⟨true, some []⟩ ⟨.SPI, 1, true, 0⟩ ⟨true, false, []⟩ rfl

/-- C6: when `n_years` (the maximum per-(month, day) count) is defined,
`configure` raises `InsufficientHistoryError` exactly when it is below
`min_years`, succeeds exactly when it is not, and success marks the
instance configured. -/
theorem configure_min_years (st : SPEIState) (p : SPEIParams) (X : Frame)
    (n : ℕ) (hx : check_X p X = .ok ())
    (hn : nYearsOf (rawModel p X) = some n) :
    ((configure st p X).2 = .error .insufficientHistoryError ↔ n < p.min_years) ∧
    ((configure st p X).2 = .ok () ↔ p.min_years ≤ n) ∧
    ((configure st p X).2 = .ok () → (configure st p X).1.configured = true) := by
  have hins : insufficient (nYearsOf (rawModel p X)) p.min_years
      = decide (n < p.min_years) := by
    rw [hn]
    rfl
  rcases configure_shape st p X hx with ⟨hflag, hEq⟩ | ⟨hflag, hEq⟩ <;> rw [hEq]
  · rw [hins] at hflag
    have hlt : n < p.min_years := of_decide_eq_true hflag
    refine ⟨by simpa using hlt, ?_, by simp⟩
    constructor
    · intro hbad
      simp at hbad
    · intro h2
      exfalso
      omega
  · rw [hins] at hflag
    have hge : ¬ n < p.min_years := of_decide_eq_false hflag
    refine ⟨by simpa using hge, ?_, fun _ => rfl⟩
    constructor
    · intro _
      omega
    · intro _
      rfl

/-- Witness for C6: `X6` holds exactly two years of history for key (1, 1)
and `P6` requires `min_years = 2`, so `configure` succeeds and configures
the instance. -/
theorem configure_min_years_witness :
    check_X P6 X6 = .ok () ∧
    nYearsOf (rawModel P6 X6) = some 2 ∧
    ((configure ⟨false, none⟩ P6 X6).2 = .ok () ↔ P6.min_years ≤ 2) ∧
    ((configure ⟨false, none⟩ P6 X6).2 = .ok () →
      (configure ⟨false, none⟩ P6 X6).1.configured = true) :=
  ⟨rfl, by decide,
    (configure_min_years ⟨false, none⟩ P6 X6 2 rfl (by decide)).2.1,
    (configure_min_years ⟨false, none⟩ P6 X6 2 rfl (by decide)).2.2⟩

/-- C10: when `configure` raises from an unconfigured instance, the instance
stays unconfigured — every later `transform` still raises
`NotConfiguredError` — even though a failed history check has already
written the partial (grouped, un-smoothed) model to the instance. -/
theorem configure_failure_leaves_unconfigured (st : SPEIState) (p : SPEIParams)
    (X : Frame) (e : SPEIError) (h0 : st.configured = false)
    (he : (configure st p X).2 = .error e) :
    (configure st p X).1.configured = false ∧
    (∀ p2 X2, transform (configure st p X).1 p2 X2 = .error .notConfiguredError) ∧
    (e = .insufficientHistoryError →
      (configure st p X).1.model = some (rawModel p X)) := by
  rcases check_X_cases p X with h | h
  · have hEq : configure st p X = (st, .error .schemaError) := by
      unfold configure
      rw [h]
    rw [hEq] at he ⊢
    refine ⟨h0, fun p2 X2 => transform_unconfigured st p2 X2 h0, ?_⟩
    intro hIns
    subst hIns
    simp at he
  · rcases configure_shape st p X h with ⟨-, hEq⟩ | ⟨-, hEq⟩ <;> rw [hEq] at he ⊢
    · exact ⟨h0, fun p2 X2 => transform_unconfigured _ p2 X2 h0, fun _ => rfl⟩
    · simp at he

/-- Witness for C10: with `min_years = 5` and only two years of data,
`configure` fails, writes the partial model, and leaves the instance
rejecting `transform`. -/
theorem configure_failure_leaves_unconfigured_witness :
    (⟨false, none⟩ : SPEIState).configured = false ∧
    (configure ⟨false, none⟩ P10 X6).2 = .error .insufficientHistoryError ∧
    (configure ⟨false, none⟩ P10 X6).1.configured = false ∧
    transform (configure ⟨false, none⟩ P10 X6).1 P10 X6
      = .error .notConfiguredError ∧
    (configure ⟨false, none⟩ P10 X6).1.model = some (rawModel P10 X6) :=
  ⟨rfl, by rfl,
    (configure_failure_leaves_unconfigured ⟨false, none⟩ P10 X6
      .insufficientHistoryError rfl (by rfl)).1,
    (configure_failure_leaves_unconfigured ⟨false, none⟩ P10 X6
      .insufficientHistoryError rfl (by rfl)).2.1 P10 X6,
    (configure_failure_leaves_unconfigured ⟨false, none⟩ P10 X6
      .insufficientHistoryError rfl (by rfl)).2.2 rfl⟩

/-- C9: on a configured instance with a valid schema, `transform` returns
its output column rather than raising, and the z-score's numeric edge cases
classify as the spec says: a zero (squared) standard deviation yields an
infinite or undefined value, and a missing mean or standard deviation
yields an undefined value. -/
theorem transform_total_edge_cases (st : SPEIState) (p : SPEIParams) (X : Frame)
    (m : List ModelRow) (hc : st.configured = true) (hm : st.model = some m)
    (hx : check_X p X = .ok ()) :
    transform st p X = .ok (transformVals m p X) ∧
    (∀ t mo, zscore t mo (some 0) = Val.inf ∨ zscore t mo (some 0) = Val.neginf ∨
      zscore t mo (some 0) = Val.nan) ∧
    (∀ t s, zscore t none s = Val.nan) ∧
    (∀ t mo, zscore t mo none = Val.nan) := by
  refine ⟨?_, ?_, ?_, ?_⟩
  · unfold transform
    rw [if_neg (by simp [hc]), hx, hm]
  · intro t mo
    cases mo with
    | none => right; right; rfl
    | some m0 =>
      unfold zscore
      dsimp only
      rw [if_pos rfl]
      rcases lt_trichotomy m0 t with hlt | heq | hgt
      · left
        rw [if_pos hlt]
      · right; right
        rw [if_neg (by rw [heq]; exact lt_irrefl t),
          if_neg (by rw [heq]; exact lt_irrefl t)]
      · right; left
        rw [if_neg (not_lt.mpr (le_of_lt hgt)), if_pos hgt]
  · intro t s
    cases s <;> rfl
  · intro t mo
    cases mo <;> rfl

/-- Witness for C9: a configured one-entry model with zero variance; the
sole input row z-scores to an edge-case value and `transform` returns
normally. -/
theorem transform_total_edge_cases_witness :
    (⟨true, some [⟨1, 1, 2, some 0, some 0⟩]⟩ : SPEIState).configured = true ∧
    transform ⟨true, some [⟨1, 1, 2, some 0, some 0⟩]⟩ P6
        ⟨true, true, [⟨⟨0, 1, 1⟩, 0, 0⟩]⟩
      = .ok (transformVals [⟨1, 1, 2, some 0, some 0⟩] P6
          ⟨true, true, [⟨⟨0, 1, 1⟩, 0, 0⟩]⟩) ∧
    (zscore 1 (some 0) (some 0) = Val.inf ∨ zscore 1 (some 0) (some 0) = Val.neginf ∨
      zscore 1 (some 0) (some 0) = Val.nan) ∧
    zscore 1 none (some 0) = Val.nan ∧
    zscore 1 (some 0) none = Val.nan :=
  ⟨rfl,
    (transform_total_edge_cases ⟨true, some [⟨1, 1, 2, some 0, some 0⟩]⟩ P6
      ⟨true, true, [⟨⟨0, 1, 1⟩, 0, 0⟩]⟩ [⟨1, 1, 2, some 0, some 0⟩] rfl rfl rfl).1,
    (transform_total_edge_cases ⟨true, some [⟨1, 1, 2, some 0, some 0⟩]⟩ P6
      ⟨true, true, [⟨⟨0, 1, 1⟩, 0, 0⟩]⟩ [⟨1, 1, 2, some 0, some 0⟩] rfl rfl rfl).2.1 1 (some 0),
    (transform_total_edge_cases ⟨true, some [⟨1, 1, 2, some 0, some 0⟩]⟩ P6
      ⟨true, true, [⟨⟨0, 1, 1⟩, 0, 0⟩]⟩ [⟨1, 1, 2, some 0, some 0⟩] rfl rfl rfl).2.2.1 1 (some 0),
    (transform_total_edge_cases ⟨true, some [⟨1, 1, 2, some 0, some 0⟩]⟩ P6
      ⟨true, true, [⟨⟨0, 1, 1⟩, 0, 0⟩]⟩ [⟨1, 1, 2, some 0, some 0⟩] rfl rfl rfl).2.2.2 1 (some 0)⟩

/-- Four years of history on keys (1,1), (1,2), (1,3) plus a single
observation of the sparse key (1,4), with a one-day rolling window so each
row's target is its own precipitation. -/
def Xcex : Frame :=
  ⟨true, true,
    [⟨⟨0, 1, 1⟩, 0, 0⟩, ⟨⟨1, 1, 2⟩, 0, 0⟩, ⟨⟨2, 1, 3⟩, 0, 0⟩,
     ⟨⟨3, 1, 1⟩, 1, 0⟩, ⟨⟨4, 1, 2⟩, 1, 0⟩, ⟨⟨5, 1, 3⟩, 1, 0⟩,
     ⟨⟨6, 1, 1⟩, 2, 0⟩, ⟨⟨7, 1, 2⟩, 2, 0⟩, ⟨⟨8, 1, 3⟩, 2, 0⟩,
     ⟨⟨9, 1, 1⟩, 3, 0⟩, ⟨⟨10, 1, 2⟩, 3, 0⟩, ⟨⟨11, 1, 3⟩, 3, 0⟩,
     ⟨⟨12, 1, 4⟩, 7, 0⟩]⟩

/-- SPI parameters with smoothing enabled (the default) and `min_years = 4`. -/
def Pcex : SPEIParams := ⟨.SPI, 1, true, 4⟩

/-- The same parameters with smoothing disabled. -/
def Pcex0 : SPEIParams := ⟨.SPI, 1, false, 4⟩

/-- A one-row frame whose single row joins the sparse key (1, 4). -/
def X4 : Frame := ⟨true, true, [⟨⟨0, 1, 4⟩, 7, 0⟩]⟩

/-- Counterexample to C5 as stated: with the default `smoothing = true`, the
key (1, 4) has count 1 < 4 / 2 = n_years / 2, yet after the smoothing step
its stored mean and std are defined (the rolling median fills them from
neighbouring days), and `transform` on a row joining that key yields the
defined value `(7 - 3/2) / √(5/3)`, not an undefined one. -/
theorem sparse_key_defined_under_smoothing_cex :
    (configure ⟨false, none⟩ Pcex Xcex).2 = .ok () ∧
    nYearsOf (rawModel Pcex Xcex) = some 4 ∧
    (∃ e ∈ ((configure ⟨false, none⟩ Pcex Xcex).1.model.getD []),
      e.month = 1 ∧ e.day = 4 ∧ 2 * e.count < 4 ∧
        e.mean ≠ none ∧ e.std_sq ≠ none) ∧
    transformVals ((configure ⟨false, none⟩ Pcex Xcex).1.model.getD []) Pcex X4
      = [Val.fin (11 / 2) (5 / 3)] := by
  have hM : (configure ⟨false, none⟩ Pcex Xcex).1.model.getD []
      = [⟨1, 1, 4, some (3 / 2), some (5 / 3)⟩,
         ⟨1, 2, 4, some (3 / 2), some (5 / 3)⟩,
         ⟨1, 3, 4, some (3 / 2), some (5 / 3)⟩,
         ⟨1, 4, 1, some (3 / 2), some (5 / 3)⟩] := by
    with_unfolding_all decide
  refine ⟨by rfl, by rfl, ?_, ?_⟩
  · rw [hM]
    refine ⟨⟨1, 4, 1, some (3 / 2), some (5 / 3)⟩, ?_, ?_⟩
    · simp
    · exact ⟨rfl, rfl, by norm_num, by simp, by simp⟩
  · rw [hM]
    with_unfolding_all decide

/-- C5 (amended): with `smoothing = false`, every stored model entry whose
count is strictly below half of `n_years` has undefined mean and std, and
the z-score `transform` computes for a row joining such an entry is
undefined.  (With `smoothing = true` the rolling median can fill such
entries back in — see the counterexample.) -/
theorem sparse_keys_undefined_without_smoothing (st : SPEIState)
    (p : SPEIParams) (X : Frame) (n : ℕ) (m : List ModelRow) (e : ModelRow)
    (hs : p.smoothing = false)
    (hok : (configure st p X).2 = .ok ())
    (hn : nYearsOf (rawModel p X) = some n)
    (hm : (configure st p X).1.model = some m)
    (he : e ∈ m) (hc2 : 2 * e.count < n) :
    e.mean = none ∧ e.std_sq = none ∧
      ∀ t, zscore t e.mean e.std_sq = Val.nan := by
  rcases check_X_cases p X with h | h
  · exfalso
    unfold configure at hok
    rw [h] at hok
    simp at hok
  · rcases configure_shape st p X h with ⟨-, hEq⟩ | ⟨-, hEq⟩ <;>
      rw [hEq] at hok hm
    · simp at hok
    · simp only [Option.some.injEq] at hm
      subst hm
      unfold finalModel at he
      rw [hs] at he
      simp only [Bool.false_eq_true, if_false] at he
      unfold nanRule at he
      rcases List.mem_map.mp he with ⟨r, -, hfr⟩
      by_cases hb : belowHalf (nYearsOf (rawModel p X)) r.count = true
      · rw [if_pos hb] at hfr
        subst hfr
        exact ⟨rfl, rfl, fun t => rfl⟩
      · exfalso
        rw [Bool.not_eq_true] at hb
        rw [if_neg (by simp [hb])] at hfr
        subst hfr
        rw [hn] at hb
        unfold belowHalf at hb
        simp only [decide_eq_false_iff_not] at hb
        exact hb hc2

/-- Witness for C5 (amended): the counterexample data with smoothing turned
off; the sparse key (1, 4) keeps undefined mean/std and z-scores to `NaN`. -/
theorem sparse_keys_undefined_without_smoothing_witness :
    Pcex0.smoothing = false ∧
    (configure ⟨false, none⟩ Pcex0 Xcex).2 = .ok () ∧
    2 * (⟨1, 4, 1, none, none⟩ : ModelRow).count < 4 ∧
    (⟨1, 4, 1, none, none⟩ : ModelRow).mean = none ∧
    (⟨1, 4, 1, none, none⟩ : ModelRow).std_sq = none ∧
    zscore 7 (⟨1, 4, 1, none, none⟩ : ModelRow).mean
      (⟨1, 4, 1, none, none⟩ : ModelRow).std_sq = Val.nan :=
  ⟨rfl, by rfl, by norm_num,
    (sparse_keys_undefined_without_smoothing ⟨false, none⟩ Pcex0 Xcex 4 _
      ⟨1, 4, 1, none, none⟩ rfl (by rfl) (by rfl) (by rfl)
      (by with_unfolding_all decide) (by norm_num)).1,
    (sparse_keys_undefined_without_smoothing ⟨false, none⟩ Pcex0 Xcex 4 _
      ⟨1, 4, 1, none, none⟩ rfl (by rfl) (by rfl) (by rfl)
      (by with_unfolding_all decide) (by norm_num)).2.1,
    (sparse_keys_undefined_without_smoothing ⟨false, none⟩ Pcex0 Xcex 4 _
      ⟨1, 4, 1, none, none⟩ rfl (by rfl) (by rfl) (by rfl)
      (by with_unfolding_all decide) (by norm_num)).2.2 7⟩

/-- An input row of the timestamp regularizer: epoch-seconds `TIME`, the
grouping key `ID`, and a numeric `VALUE`. -/
structure TRow where
  TIME : ℕ
  ID : ℤ
  VALUE : ℚ
deriving DecidableEq

/-- An output row of the regularizer: a grid `TIME`, the grouping key, and
a possibly-missing aggregated `VALUE`. -/
structure TOut where
  TIME : ℕ
  ID : ℤ
  VALUE : Option ℚ
deriving DecidableEq

/-- The aggregation strategies of the regularizer named by the claims:
`mean` (the default) and `sum`. -/
inductive AggMethod where
  | mean
  | sum
deriving DecidableEq

/-- Apply an aggregation method to the values of one bin. -/
def aggApply : AggMethod → List ℚ → ℚ
  | .mean, l => listMean l
  | .sum, l => l.sum

/-- Modelled from the spec: the grid of the timestamp regularizer
(`sam/preprocessing/complete_timestamps.py`, whose implementation is not
among the sources at hand — only its tests are).  Per spec §4.1, the grid is
"the regular sequence from `start_time` to `end_time` (inclusive) stepped by
the frequency": all timestamps `start + f * k` that do not exceed `endT`. -/
def gridTimes (start endT f : ℕ) : List ℕ :=
  (List.range ((endT - start) / f + 1)).map fun k => start + f * k

/-- Modelled from the spec: left-floor binning — the bin of an observation
is the latest grid timestamp not exceeding it. -/
def binOf (start f t : ℕ) : ℕ := start + f * ((t - start) / f)

/-- The input values landing in bin `g` for group `i` (rows before the start
bound belong to no bin). -/
def binValues (rows : List TRow) (start f g : ℕ) (i : ℤ) : List ℚ :=
  (rows.filter fun r => r.ID = i ∧ start ≤ r.TIME ∧ binOf start f r.TIME = g).map
    fun r => r.VALUE

/-- The output row of the regularizer for grid time `g` and group `i`:
missing when the bin is empty, otherwise the aggregation of the bin. -/
def outRow (rows : List TRow) (start f : ℕ) (agg : AggMethod) (g : ℕ) (i : ℤ) :
    TOut :=
  { TIME := g, ID := i,
    VALUE := if binValues rows start f g i = [] then none
             else some (aggApply agg (binValues rows start f g i)) }

/-- Modelled from the spec: `complete_timestamps` — one output row per
(grid time, observed group key) pair, with per-bin aggregation (spec §4.1;
implementation file not among the sources at hand). -/
def complete_timestamps (rows : List TRow) (f start endT : ℕ)
    (agg : AggMethod) : List TOut :=
  (gridTimes start endT f).flatMap fun g =>
    ((rows.map fun r => r.ID).dedup).map (outRow rows start f agg g)

lemma filter_eq_singleton_of_nodup {α : Type} [DecidableEq α] {l : List α}
    {a : α} (hn : l.Nodup) (ha : a ∈ l) : l.filter (fun x => x = a) = [a] := by
  induction l with
  | nil => simp at ha
  | cons x xs ih =>
    rcases List.nodup_cons.mp hn with ⟨hx, hxs⟩
    by_cases hxa : x = a
    · subst hxa
      rw [List.filter_cons_of_pos (by simp)]
      have : xs.filter (fun y => y = x) = [] := by
        rw [List.filter_eq_nil_iff]
        intro b hb
        simp only [decide_eq_true_eq]
        intro hbx
        exact hx (hbx ▸ hb)
      rw [this]
    · rcases List.mem_cons.mp ha with h | h
      · exact absurd h.symm hxa
      · rw [List.filter_cons_of_neg (by simpa using hxa)]
        exact ih hxs h

lemma gridTimes_nodup (start endT f : ℕ) (hf : 0 < f) :
    (gridTimes start endT f).Nodup := by
  unfold gridTimes
  refine List.Nodup.map ?_ (List.nodup_range _)
  intro a b hab
  have h2 : f * a = f * b := Nat.add_left_cancel hab
  exact Nat.eq_of_mul_eq_mul_left hf h2

/-- C1 (amended): for every input, frequency step and bound pair, the
regularizer's output has exactly `⌊(end − start) / f⌋ + 1` rows per observed
group key — one per grid timestamp of the inclusive sequence
`start, start + f, ...` capped at `end` — and no duplicate
(grid time, group key) pairs.  (The spec's `⌈(end − start) / f⌉ + 1` count
agrees whenever `f` divides `end − start`; see the counterexample for the
general case.) -/
theorem complete_timestamps_row_count (rows : List TRow) (f start endT : ℕ)
    (agg : AggMethod) (hf : 0 < f) (i : ℤ)
    (hi : i ∈ rows.map fun r => r.ID) :
    ((complete_timestamps rows f start endT agg).filter
        fun r => r.ID = i).length = (endT - start) / f + 1 ∧
    ((complete_timestamps rows f start endT agg).map
        fun r => (r.TIME, r.ID)).Nodup := by
  constructor
  · unfold complete_timestamps
    rw [List.filter_flatMap, List.length_flatMap]
    simp only [Function.comp_def]
    have hone : ∀ g, (((rows.map fun r => r.ID).dedup.map
        (outRow rows start f agg g)).filter (fun r => r.ID = i)).length = 1 := by
      intro g
      rw [List.filter_map]
      have hcong : (rows.map fun r => r.ID).dedup.filter
            ((fun r => decide (r.ID = i)) ∘ outRow rows start f agg g)
          = (rows.map fun r => r.ID).dedup.filter (fun x => x = i) := by
        apply List.filter_congr
        intro a _
        rfl
      rw [hcong,
        filter_eq_singleton_of_nodup (List.nodup_dedup _) (List.mem_dedup.mpr hi)]
      rfl
    have hmap : (gridTimes start endT f).map (fun g =>
          (((rows.map fun r => r.ID).dedup.map
            (outRow rows start f agg g)).filter (fun r => r.ID = i)).length)
        = (gridTimes start endT f).map (fun _ => 1) := by
      apply List.map_congr_left
      intro g _
      exact hone g
    rw [hmap, List.map_const', List.sum_replicate, smul_eq_mul, mul_one]
    unfold gridTimes
    rw [List.length_map, List.length_range]
  · unfold complete_timestamps
    rw [List.map_flatMap]
    simp only [List.map_map]
    have hfun : ∀ g : ℕ, ((fun r : TOut => (r.TIME, r.ID)) ∘
        outRow rows start f agg g) = fun j : ℤ => (g, j) := fun g => rfl
    simp only [hfun]
    rw [List.nodup_flatMap]
    constructor
    · intro g _
      refine List.Nodup.map ?_ (List.nodup_dedup _)
      intro a b hab
      exact ((Prod.mk.injEq _ _ _ _).mp hab).2
    · refine (gridTimes_nodup start endT f hf).imp ?_
      intro g1 g2 hne x hx1 hx2
      rcases List.mem_map.mp hx1 with ⟨i1, -, rfl⟩
      rcases List.mem_map.mp hx2 with ⟨i2, -, hEq⟩
      exact hne (congrArg Prod.fst hEq).symm

/-- Witness for C1 (amended): two rows of one group on a 15-unit grid over
[0, 45] give 45 / 15 + 1 = 4 rows for that group and distinct pairs. -/
theorem complete_timestamps_row_count_witness :
    0 < 15 ∧
    (1 : ℤ) ∈ ([⟨9, 1, 1⟩, ⟨18, 1, 2⟩] : List TRow).map (fun r => r.ID) ∧
    ((complete_timestamps [⟨9, 1, 1⟩, ⟨18, 1, 2⟩] 15 0 45 .mean).filter
        fun r => r.ID = 1).length = (45 - 0) / 15 + 1 ∧
    ((complete_timestamps [⟨9, 1, 1⟩, ⟨18, 1, 2⟩] 15 0 45 .mean).map
        fun r => (r.TIME, r.ID)).Nodup :=
  ⟨by decide, by decide,
    (complete_timestamps_row_count [⟨9, 1, 1⟩, ⟨18, 1, 2⟩] 15 0 45 .mean
      (by decide) 1 (by decide)).1,
    (complete_timestamps_row_count [⟨9, 1, 1⟩, ⟨18, 1, 2⟩] 15 0 45 .mean
      (by decide) 1 (by decide)).2⟩

/-- Counterexample to C1 as stated: with start 0, end 3 and step 2, the
inclusive grid capped at the end bound is {0, 2}, so a group observed in the
input gets 2 output rows, while `⌈(end − start) / f⌉ + 1 = 3`. -/
theorem complete_timestamps_ceil_count_cex :
    ((complete_timestamps [⟨0, 1, 5⟩] 2 0 3 .mean).filter
      fun r => r.ID = 1).length = 2 ∧
    (3 - 0 + 2 - 1) / 2 + 1 = 3 ∧
    ¬ ((complete_timestamps [⟨0, 1, 5⟩] 2 0 3 .mean).filter
        fun r => r.ID = 1).length = (3 - 0 + 2 - 1) / 2 + 1 := by
  decide

/-- C4: when a grid bin of one group receives exactly the two values `a` and
`b`, the regularizer's output row for that bin carries their mean under the
default aggregation and their sum under `aggregate_method = 'sum'`. -/
theorem complete_timestamps_aggregation (rows : List TRow)
    (f start endT g : ℕ) (i : ℤ) (a b : ℚ)
    (hg : g ∈ gridTimes start endT f)
    (hi : i ∈ rows.map fun r => r.ID)
    (hv : binValues rows start f g i = [a, b]) :
    (∃ r ∈ complete_timestamps rows f start endT .mean,
      r.TIME = g ∧ r.ID = i) ∧
    (∀ r ∈ complete_timestamps rows f start endT .mean,
      r.TIME = g → r.ID = i → r.VALUE = some ((a + b) / 2)) ∧
    (∀ r ∈ complete_timestamps rows f start endT .sum,
      r.TIME = g → r.ID = i → r.VALUE = some (a + b)) := by
  have hmean : aggApply .mean [a, b] = (a + b) / 2 := by
    show [a, b].sum / (([a, b].length : ℕ) : ℚ) = (a + b) / 2
    norm_num
  have hsum : aggApply .sum [a, b] = a + b := by
    show [a, b].sum = a + b
    norm_num
  refine ⟨?_, ?_, ?_⟩
  · exact ⟨outRow rows start f .mean g i,
      List.mem_flatMap.mpr ⟨g, hg,
        List.mem_map.mpr ⟨i, List.mem_dedup.mpr hi, rfl⟩⟩, rfl, rfl⟩
  · intro r hr hT hI
    rcases List.mem_flatMap.mp hr with ⟨g2, -, hr2⟩
    rcases List.mem_map.mp hr2 with ⟨i2, -, rfl⟩
    have hg2 : g2 = g := hT
    have hi2 : i2 = i := hI
    subst hg2
    subst hi2
    show (if binValues rows start f g2 i2 = [] then none
      else some (aggApply .mean (binValues rows start f g2 i2))) = _
    rw [hv, if_neg (by simp), hmean]
  · intro r hr hT hI
    rcases List.mem_flatMap.mp hr with ⟨g2, -, hr2⟩
    rcases List.mem_map.mp hr2 with ⟨i2, -, rfl⟩
    have hg2 : g2 = g := hT
    have hi2 : i2 = i := hI
    subst hg2
    subst hi2
    show (if binValues rows start f g2 i2 = [] then none
      else some (aggApply .sum (binValues rows start f g2 i2))) = _
    rw [hv, if_neg (by simp), hsum]

/-- Witness for C4 at the claim's numbers: same-bin values 2 and 3 yield
their mean 5/2 by default and their sum 5 under the sum aggregator. -/
theorem complete_timestamps_aggregation_witness :
    15 ∈ gridTimes 0 45 15 ∧
    (1 : ℤ) ∈ ([⟨16, 1, 2⟩, ⟨20, 1, 3⟩] : List TRow).map (fun r => r.ID) ∧
    binValues [⟨16, 1, 2⟩, ⟨20, 1, 3⟩] 0 15 15 1 = [2, 3] ∧
    (∀ r ∈ complete_timestamps [⟨16, 1, 2⟩, ⟨20, 1, 3⟩] 15 0 45 .mean,
      r.TIME = 15 → r.ID = 1 → r.VALUE = some (((2 : ℚ) + 3) / 2)) ∧
    (∀ r ∈ complete_timestamps [⟨16, 1, 2⟩, ⟨20, 1, 3⟩] 15 0 45 .sum,
      r.TIME = 15 → r.ID = 1 → r.VALUE = some ((2 : ℚ) + 3)) :=
  ⟨by decide, by decide, by with_unfolding_all decide,
    (complete_timestamps_aggregation [⟨16, 1, 2⟩, ⟨20, 1, 3⟩] 15 0 45 15 1 2 3
      (by decide) (by decide) (by with_unfolding_all decide)).2.1,
    (complete_timestamps_aggregation [⟨16, 1, 2⟩, ⟨20, 1, 3⟩] 15 0 45 15 1 2 3
      (by decide) (by decide) (by with_unfolding_all decide)).2.2⟩
